import Mathlib

/-!
Verification of the analytics helpers of the ai-yfinance-realtime repository
(src/utils/helpers.py and src/ai/generators.py).

Modelling conventions, used consistently below:

- a pandas Series is modelled as a list of (label, value) pairs together with
  a flag recording whether the index labels are datetime-like.  Labels are
  integers; values are Option Rat, where none models the float NaN.
- Python floats are modelled by exact rational numbers; float expressions that
  involve a square root (standard deviation, Pearson correlation) are modelled
  exactly: the computed real number is represented by its rational components
  and given a meaning in the real numbers via Real.sqrt.  The float literal
  0.7 of the source is read as the exact rational 7/10.
- pandas Series.corr first inner-aligns the two series on their index labels
  and then computes the Pearson correlation over the aligned pairs whose two
  values are both non-NaN (nanops.nancorr with min_periods 1); the result is
  NaN when no pair survives or when either aligned variance is zero.  The
  model below reproduces exactly this label alignment.
- Python sorted(..., reverse=True) is a stable descending sort; it is modelled
  by an insertion sort that keeps the original relative order of elements
  whose keys are equal.
-/

/-- A pandas Series: ordered (label, value) rows plus a flag telling whether
the index labels are datetime-like (used by the hasattr date test of the
source).  Values are Option Rat with none playing the role of NaN. -/
structure PSeries where
  entries : List (ℤ × Option ℚ)
  dateIndex : Bool
deriving DecidableEq, Repr

namespace PSeries

/-- Number of rows, len(series). -/
def length (s : PSeries) : ℕ := s.entries.length

/-- series.tail(n): the last n rows (all rows when n exceeds the length). -/
def tail (s : PSeries) (n : ℕ) : PSeries :=
  ⟨s.entries.drop (s.entries.length - n), s.dateIndex⟩

/-- series.iloc[i:i+w]: positional slice of width w starting at i. -/
def ilocSlice (s : PSeries) (i w : ℕ) : PSeries :=
  ⟨(s.entries.drop i).take w, s.dateIndex⟩

/-- The values of the series in row order, with NaN kept. -/
def vals (s : PSeries) : List (Option ℚ) := s.entries.map Prod.snd

/-- The non-NaN values of the series in row order (pandas reductions skip
NaN by default). -/
def nonNaN (s : PSeries) : List ℚ := s.entries.filterMap Prod.snd

end PSeries

/-- Binary minimum on the rationals, written out so that it evaluates by
kernel reduction. -/
def qmin (a b : ℚ) : ℚ := if a ≤ b then a else b

/-- Binary maximum on the rationals. -/
def qmax (a b : ℚ) : ℚ := if b ≤ a then a else b

/-- Minimum of a list of rationals, none on the empty list; models
series.min() over the non-NaN values. -/
def listMin : List ℚ → Option ℚ
  | [] => none
  | h :: t => some (t.foldl qmin h)

/-- Maximum of a list of rationals, none on the empty list; models
series.max() over the non-NaN values. -/
def listMax : List ℚ → Option ℚ
  | [] => none
  | h :: t => some (t.foldl qmax h)

/-- series.min() with skipna: NaN (none) when every value is NaN. -/
def seriesMin (s : PSeries) : Option ℚ := listMin s.nonNaN

/-- series.max() with skipna. -/
def seriesMax (s : PSeries) : Option ℚ := listMax s.nonNaN

/-- series.mean() with skipna: NaN (none) on an empty or all-NaN series. -/
def seriesMean (s : PSeries) : Option ℚ :=
  let xs := s.nonNaN
  if xs.length = 0 then none else some (xs.sum / xs.length)

/-- series.var() with ddof = 1 and skipna: NaN (none) when fewer than two
non-NaN values are present (division by count - 1 = 0 in pandas). -/
def sampleVar (s : PSeries) : Option ℚ :=
  let xs := s.nonNaN
  if xs.length < 2 then none
  else
    let m := xs.sum / xs.length
    some ((xs.map (fun x => (x - m) ^ 2)).sum / ((xs.length : ℚ) - 1))

/-- The minmax branch of normalize_data: (data - data.min()) / (data.max() -
data.min()) with elementwise NaN propagation.  When max = min the series is
constant on its non-NaN values, so every numerator is 0 and the division is
the float 0/0 = NaN, modelled by none; when the series is empty or all NaN,
min and max are NaN and every entry becomes NaN. -/
def normalizeMinmax (s : PSeries) : PSeries :=
  match seriesMin s, seriesMax s with
  | some mn, some mx =>
      ⟨s.entries.map (fun e =>
          (e.1, e.2.bind (fun v =>
            if mx - mn = 0 then none else some ((v - mn) / (mx - mn))))),
       s.dateIndex⟩
  | _, _ => ⟨s.entries.map (fun e => (e.1, none)), s.dateIndex⟩

/-- The series data - data.mean() used by the zscore branch of
normalize_data; when the mean is NaN every entry is NaN. -/
def centerSeries (s : PSeries) : PSeries :=
  match seriesMean s with
  | none => ⟨s.entries.map (fun e => (e.1, none)), s.dateIndex⟩
  | some m => ⟨s.entries.map (fun e => (e.1, e.2.map (fun v => v - m))), s.dateIndex⟩

/-- Result of normalize_data.  The minmax branch carries its exact rational
values.  The zscore branch (data - mean) / std is carried exactly as the
centered series together with the ddof-1 variance: row i of the float result
is centered_i divided by the square root of the variance. -/
inductive NormalizedSeries where
  | minmax (out : PSeries)
  | zscore (centered : PSeries) (variance : Option ℚ)
deriving DecidableEq, Repr

/-- Real-valued meaning of one row of a NormalizedSeries (none is NaN).
For the zscore branch a 0/0 division (constant series) and a division by a
NaN standard deviation both give NaN. -/
noncomputable def NormalizedSeries.rowVal : NormalizedSeries → ℤ → Option ℝ
  | .minmax out, l => (List.lookup l out.entries).bind (fun v => v.map (fun q => (q : ℝ)))
  | .zscore centered variance, l =>
      (List.lookup l centered.entries).bind (fun v =>
        match v, variance with
        | some c, some var =>
            if var = 0 then none else some ((c : ℝ) / Real.sqrt (var : ℝ))
        | _, _ => none)

/-- normalize_data(data, method) of helpers.py lines 153-160.  The minmax and
zscore branches return normally; any other method raises ValueError, modelled
by Except.error.  (The source message text uses single quotes around the two
method names.) -/
def normalize_data (data : PSeries) (method : String) : Except String NormalizedSeries :=
  if method = "minmax" then .ok (.minmax (normalizeMinmax data))
  else if method = "zscore" then .ok (.zscore (centerSeries data) (sampleVar data))
  else .error "Method must be minmax or zscore"

/-- Exact representation of a Pearson correlation value: the real number
num / sqrt den, where num is the centered cross product sum and den the
product of the two centered square sums.  This represents the float
correlation of the source without rounding. -/
structure Corr where
  num : ℚ
  den : ℚ
deriving DecidableEq, Repr

/-- The real number a Corr stands for. -/
noncomputable def Corr.val (c : Corr) : ℝ := (c.num : ℝ) / Real.sqrt (c.den : ℝ)

/-- Decides val c > t for a rational threshold t ≥ 0 (the source compares
correlation > 0.7): positive numerator and squared comparison. -/
def corrGtB (c : Corr) (t : ℚ) : Bool :=
  decide (0 < c.num ∧ t ^ 2 * c.den < c.num ^ 2)

/-- Decides val c ≤ val d when both dens are positive, by sign analysis and
squared comparisons; used as the sort key comparison. -/
def corrLeB (c d : Corr) : Bool :=
  if 0 ≤ c.num then decide (0 ≤ d.num ∧ c.num ^ 2 * d.den ≤ d.num ^ 2 * c.den)
  else if 0 ≤ d.num then true
  else decide (d.num ^ 2 * c.den ≤ c.num ^ 2 * d.den)

/-- The pairs over which target_norm.corr(segment_norm) is computed: pandas
inner-aligns the two series on their index labels (in the order of the left
index) and nancorr then masks out pairs in which either value is NaN. -/
def corrPairs (a b : PSeries) : List (ℚ × ℚ) :=
  a.entries.filterMap (fun e =>
    match e.2, List.lookup e.1 b.entries with
    | some x, some (some y) => some (x, y)
    | _, _ => none)

/-- Mean of the first components of the aligned pairs (0 on the empty list,
where the correlation is NaN anyway). -/
def meanFst (ps : List (ℚ × ℚ)) : ℚ := (ps.map Prod.fst).sum / ps.length

/-- Mean of the second components of the aligned pairs. -/
def meanSnd (ps : List (ℚ × ℚ)) : ℚ := (ps.map Prod.snd).sum / ps.length

/-- Centered square sum of the first components. -/
def sxxOf (ps : List (ℚ × ℚ)) : ℚ := (ps.map (fun p => (p.1 - meanFst ps) ^ 2)).sum

/-- Centered square sum of the second components. -/
def syyOf (ps : List (ℚ × ℚ)) : ℚ := (ps.map (fun p => (p.2 - meanSnd ps) ^ 2)).sum

/-- Centered cross product sum. -/
def sxyOf (ps : List (ℚ × ℚ)) : ℚ :=
  (ps.map (fun p => (p.1 - meanFst ps) * (p.2 - meanSnd ps))).sum

/-- Pearson correlation over the aligned pairs, as computed by
nanops.nancorr via np.corrcoef.  The result is NaN (none) exactly when
either centered square sum is zero; this also covers the empty and the
singleton pair list.  Otherwise the float value sxy / sqrt (sxx * syy) is
returned in exact form. -/
def pearson (ps : List (ℚ × ℚ)) : Option Corr :=
  if sxxOf ps = 0 ∨ syyOf ps = 0 then none else some ⟨sxyOf ps, sxxOf ps * syyOf ps⟩

/-- One element of the similarities list of find_similar_patterns, lines
252-257 of helpers.py: a dict with keys start_index, end_index, correlation
and start_date. -/
structure PatternMatch where
  start_index : ℕ
  end_index : ℕ
  correlation : Corr
  start_date : Option ℤ
deriving DecidableEq, Repr

/-- Value type of the dict literal built at lines 252-257. -/
inductive DictVal where
  | nat (n : ℕ)
  | corr (c : Corr)
  | date (d : Option ℤ)
deriving DecidableEq, Repr

/-- The dict literal of lines 252-257, as a key ordered association list. -/
def patternMatchDict (m : PatternMatch) : List (String × DictVal) :=
  [("start_index", .nat m.start_index),
   ("end_index", .nat m.end_index),
   ("correlation", .corr m.correlation),
   ("start_date", .date m.start_date)]

/-- Stable insertion of a match into a list sorted by descending
correlation: the new element goes before the first element whose
correlation is at most its own.  Elements with equal correlation that were
already in the list stay in front, as with Python sorted. -/
def insertDesc (x : PatternMatch) : List PatternMatch → List PatternMatch
  | [] => [x]
  | h :: t => if corrLeB h.correlation x.correlation then x :: h :: t
              else h :: insertDesc x t

/-- sorted(similarities, key correlation, reverse=True): stable descending
sort by correlation. -/
def sortDesc : List PatternMatch → List PatternMatch
  | [] => []
  | h :: t => insertDesc h (sortDesc t)

/-- Body of the loop of find_similar_patterns for one window position i:
slice the segment, minmax normalize both windows, correlate, and keep the
dict when the correlation is not NaN and exceeds 0.7.  The start_date value
is the first index label of the segment when the labels are datetime-like
(hasattr date), else None. -/
def candAt (targetNorm : PSeries) (comparison : PSeries) (window : ℕ) (i : ℕ) :
    Option PatternMatch :=
  let segment := comparison.ilocSlice i window
  let segmentNorm := normalizeMinmax segment
  match pearson (corrPairs targetNorm segmentNorm) with
  | none => none
  | some c =>
      if corrGtB c (7 / 10) then
        some { start_index := i
               end_index := i + window
               correlation := c
               start_date := if comparison.dateIndex then segment.entries.head?.map Prod.fst
                             else none }
      else none

/-- find_similar_patterns(target_series, comparison_series, window) of
helpers.py lines 234-259.  Series shorter than the window give the empty
list.  Otherwise the tail window of the target is minmax normalized once,
every window of the comparison series is normalized and correlated against
it, matches above 0.7 are collected in window order and finally sorted by
descending correlation (stable, like Python sorted with reverse=True). -/
def find_similar_patterns (target_series comparison_series : PSeries) (window : ℕ) :
    List PatternMatch :=
  if target_series.length < window ∨ comparison_series.length < window then []
  else
    let targetNorm := normalizeMinmax (target_series.tail window)
    sortDesc ((List.range (comparison_series.length - window + 1)).filterMap
      (candAt targetNorm comparison_series window))

/-- calculate_volatility(returns, annualize) of helpers.py lines 119-124:
the ddof-1 standard deviation of the returns, multiplied by sqrt 252 when
annualize is true (default true in the source).  The standard deviation of
fewer than two values is NaN (none). -/
noncomputable def calculate_volatility (returns : PSeries) (annualize : Bool) : Option ℝ :=
  (sampleVar returns).map (fun v =>
    let vol := Real.sqrt (v : ℝ)
    if annualize then vol * Real.sqrt 252 else vol)

section

open scoped Classical

/-- calculate_sharpe_ratio(returns, risk_free_rate) of helpers.py lines
126-134 (default risk_free_rate 0.02): mean return times 252 minus the risk
free rate, divided by the annualized volatility; returns 0 when the
volatility equals 0.  A NaN mean or NaN volatility makes the quotient NaN. -/
noncomputable def calculate_sharpe_ratio (returns : PSeries) (risk_free_rate : ℚ) : Option ℝ :=
  let excess_returns := (seriesMean returns).map (fun m => ((m * 252 - risk_free_rate : ℚ) : ℝ))
  let volatility := calculate_volatility returns true
  if volatility = some 0 then some 0
  else
    match excess_returns, volatility with
    | some e, some v => some (e / v)
    | _, _ => none

end

/-- safe_divide(numerator, denominator, default) of helpers.py lines
179-183: the default (0.0 unless overridden) when the denominator is 0 or
NaN, the plain quotient otherwise (NaN when the numerator is NaN). -/
def safe_divide (numerator denominator : Option ℚ) (default : ℚ) : Option ℚ :=
  if denominator = some 0 ∨ denominator = none then some default
  else
    match numerator, denominator with
    | some a, some b => some (a / b)
    | _, _ => none

/-- A Python value as handled by _format_data_for_analysis: None, a number,
a string, or a dict with string keys. -/
inductive PyVal where
  | none_
  | num (q : ℚ)
  | str (s : String)
  | dict (entries : List (String × PyVal))

/-- Python truthiness for the if data test: None, 0, the empty string and
the empty dict are falsy. -/
def pyTruthy : PyVal → Bool
  | .none_ => false
  | .num q => q != 0
  | .str s => s != ""
  | .dict l => !l.isEmpty

/-- dict.get(key, default): the stored value when the key is present, the
default otherwise.  The source only applies it to dict values. -/
def pyGet (v : PyVal) (key : String) (default : PyVal) : PyVal :=
  match v with
  | .dict l =>
      match List.lookup key l with
      | some x => x
      | none => default
  | _ => default

/-- The formatted list built by FinancialAIGenerator._format_data_for_analysis
(generators.py lines 268-285): one summary dict per symbol whose data is
truthy, with exactly the keys symbol, price, change_pct, volume_ratio, rsi,
trend and volatility.  The source finally renders this list with json.dumps;
the claims concern the summaries, so the model stops at the list. -/
def format_data_for_analysis (market_data : List (String × PyVal)) :
    List (List (String × PyVal)) :=
  market_data.filterMap (fun e =>
    if pyTruthy e.2 then
      some [("symbol", .str e.1),
            ("price", pyGet e.2 "current_price" (.num 0)),
            ("change_pct", pyGet e.2 "price_change_percent" (.num 0)),
            ("volume_ratio", pyGet (pyGet e.2 "volume_analysis" (.dict [])) "volume_ratio" (.num 0)),
            ("rsi", pyGet (pyGet e.2 "technical_indicators" (.dict [])) "rsi" (.num 50)),
            ("trend", pyGet (pyGet e.2 "trend_analysis" (.dict [])) "short_term_trend" (.str "neutral")),
            ("volatility", pyGet (pyGet e.2 "volatility" (.dict [])) "daily_volatility" (.num 0))]
    else none)

/-- The sort key comparison read at the level of real correlation values:
corrGE a b says that the correlation of a is at least that of b. -/
def corrGE (a b : PatternMatch) : Prop :=
  b.correlation.val ≤ a.correlation.val

/-!
Concrete inputs used by the witness and counterexample theorems below.
The Batteries rational arithmetic definitions are sealed against unfolding;
they are reopened here so that decide can evaluate the model on concrete
series (the kernel rechecks every such evaluation).
-/

attribute [local semireducible] Rat.add Rat.mul Rat.sub Rat.inv Rat.ofScientific

/-- A two bar series with integer labels 0, 1 and values 0, 1. -/
def wT : PSeries := ⟨[(0, some 0), (1, some 1)], false⟩

/-- The single match that the similarity search finds when comparing wT
against itself with window 2: the normalized window is (0, 1), both centered
square sums and the cross sum equal 1/2, so the correlation is
(1/2) / sqrt (1/4) = 1. -/
def wM : PatternMatch := ⟨0, 2, ⟨1/2, 1/4⟩, none⟩

/-- A one bar series, shorter than every window used below. -/
def shortT : PSeries := ⟨[(0, some 1)], false⟩

/-- Twenty bars with labels 0..19 and values 0..19. -/
def cexT : PSeries :=
  ⟨(List.range 20).map (fun k => ((k : ℤ), some (k : ℚ))), false⟩

/-- Twenty bars with the same values 0..19 as the tail of cexT but with
labels 100..119, as a history over a different date range would have. -/
def cexC : PSeries :=
  ⟨(List.range 20).map (fun k => ((k : ℤ) + 100, some (k : ℚ))), false⟩

/-- A three bar series of constant zero returns: its variance and hence its
volatility are zero. -/
def zeroR : PSeries := ⟨[(0, some 0), (1, some 0), (2, some 0)], false⟩

/-- A one symbol market_data mapping for the prompt formatting witness. -/
def mdW : List (String × PyVal) :=
  [("AAPL", PyVal.dict [("current_price", PyVal.num 123)])]

/-- The summary dict built from mdW. -/
def mdWSummary : List (String × PyVal) :=
  [("symbol", .str "AAPL"), ("price", .num 123), ("change_pct", .num 0),
   ("volume_ratio", .num 0), ("rsi", .num 50), ("trend", .str "neutral"),
   ("volatility", .num 0)]

/-- normalize_data with its default method argument minmax reduces to the
minmax normalizer; find_similar_patterns above uses this form directly. -/
theorem normalize_data_minmax (s : PSeries) :
    normalize_data s "minmax" = .ok (.minmax (normalizeMinmax s)) := rfl

/-!
General lemmas about the embedded similarity search.
-/

/-- A correlation produced by pearson has a positive denominator component:
both centered square sums are nonzero sums of squares. -/
theorem pearson_den_pos {ps : List (ℚ × ℚ)} {c : Corr}
    (h : pearson ps = some c) : 0 < c.den := by
  unfold pearson at h
  by_cases hz : sxxOf ps = 0 ∨ syyOf ps = 0
  · rw [if_pos hz] at h
    exact absurd h (by simp)
  · rw [if_neg hz] at h
    push_neg at hz
    have hxx : 0 ≤ sxxOf ps :=
      List.sum_nonneg (by
        intro x hx
        rcases List.mem_map.mp hx with ⟨p, _, rfl⟩
        exact sq_nonneg _)
    have hyy : 0 ≤ syyOf ps :=
      List.sum_nonneg (by
        intro x hx
        rcases List.mem_map.mp hx with ⟨p, _, rfl⟩
        exact sq_nonneg _)
    have hc : c = ⟨sxyOf ps, sxxOf ps * syyOf ps⟩ := (Option.some.inj h).symm
    rw [hc]
    exact mul_pos (lt_of_le_of_ne hxx (Ne.symm hz.1)) (lt_of_le_of_ne hyy (Ne.symm hz.2))

/-- corrGtB decides the strict comparison of the represented real value with
a nonnegative rational threshold. -/
theorem corrGtB_iff {c : Corr} {t : ℚ} (hden : 0 < c.den) (ht : 0 ≤ t) :
    corrGtB c t = true ↔ (t : ℝ) < c.val := by
  have hdR : (0 : ℝ) < (c.den : ℝ) := by exact_mod_cast hden
  have hs : 0 < Real.sqrt (c.den : ℝ) := Real.sqrt_pos.mpr hdR
  have htR : (0 : ℝ) ≤ (t : ℝ) := by exact_mod_cast ht
  rw [corrGtB, decide_eq_true_eq, Corr.val, lt_div_iff₀ hs]
  constructor
  · rintro ⟨h1, h2⟩
    have h1R : (0 : ℝ) < (c.num : ℝ) := by exact_mod_cast h1
    have h2R : (t : ℝ) ^ 2 * (c.den : ℝ) < (c.num : ℝ) ^ 2 := by exact_mod_cast h2
    by_contra hle
    push_neg at hle
    have hnn : 0 ≤ (c.num : ℝ) := le_of_lt h1R
    have : (c.num : ℝ) ^ 2 ≤ ((t : ℝ) * Real.sqrt (c.den : ℝ)) ^ 2 := by
      have := mul_self_le_mul_self hnn hle
      simpa [pow_two] using this
    have hsq : ((t : ℝ) * Real.sqrt (c.den : ℝ)) ^ 2 = (t : ℝ) ^ 2 * (c.den : ℝ) := by
      rw [mul_pow, Real.sq_sqrt (le_of_lt hdR)]
    rw [hsq] at this
    linarith
  · intro h
    have hts : 0 ≤ (t : ℝ) * Real.sqrt (c.den : ℝ) :=
      mul_nonneg htR (Real.sqrt_nonneg _)
    have h1R : (0 : ℝ) < (c.num : ℝ) := lt_of_le_of_lt hts h
    have h2R : (t : ℝ) ^ 2 * (c.den : ℝ) < (c.num : ℝ) ^ 2 := by
      have := mul_self_lt_mul_self hts h
      have hsq : ((t : ℝ) * Real.sqrt (c.den : ℝ)) * ((t : ℝ) * Real.sqrt (c.den : ℝ))
          = (t : ℝ) ^ 2 * (c.den : ℝ) := by
        have := Real.sq_sqrt (le_of_lt hdR)
        nlinarith [Real.sq_sqrt (le_of_lt hdR)]
      nlinarith [this, hsq]
    constructor
    · exact_mod_cast h1R
    · exact_mod_cast h2R

/-- Comparison of products with square roots, reduced to a comparison of
squares: for nonnegative factors, a * sqrt q ≤ b * sqrt p exactly when
a ^ 2 * q ≤ b ^ 2 * p. -/
theorem mul_sqrt_le_mul_sqrt_iff {a b p q : ℝ} (ha : 0 ≤ a) (hb : 0 ≤ b)
    (hp : 0 ≤ p) (_hq : 0 ≤ q) :
    a * Real.sqrt q ≤ b * Real.sqrt p ↔ a ^ 2 * q ≤ b ^ 2 * p := by
  rw [show a * Real.sqrt q = Real.sqrt (a ^ 2 * q) by
        rw [Real.sqrt_mul (sq_nonneg a), Real.sqrt_sq ha],
      show b * Real.sqrt p = Real.sqrt (b ^ 2 * p) by
        rw [Real.sqrt_mul (sq_nonneg b), Real.sqrt_sq hb],
      Real.sqrt_le_sqrt_iff (mul_nonneg (sq_nonneg b) hp)]

/-- corrLeB decides the comparison of the represented real values whenever
both denominator components are positive, as they are for every correlation
produced by pearson. -/
theorem corrLeB_iff {c d : Corr} (hc : 0 < c.den) (hd : 0 < d.den) :
    corrLeB c d = true ↔ c.val ≤ d.val := by
  have hcR : (0 : ℝ) < (c.den : ℝ) := by exact_mod_cast hc
  have hdR : (0 : ℝ) < (d.den : ℝ) := by exact_mod_cast hd
  have hsc : 0 < Real.sqrt (c.den : ℝ) := Real.sqrt_pos.mpr hcR
  have hsd : 0 < Real.sqrt (d.den : ℝ) := Real.sqrt_pos.mpr hdR
  rw [Corr.val, Corr.val, div_le_div_iff₀ hsc hsd]
  unfold corrLeB
  by_cases h1 : (0 : ℚ) ≤ c.num
  · rw [if_pos h1, decide_eq_true_eq]
    have h1R : (0 : ℝ) ≤ (c.num : ℝ) := by exact_mod_cast h1
    by_cases h2 : (0 : ℚ) ≤ d.num
    · have h2R : (0 : ℝ) ≤ (d.num : ℝ) := by exact_mod_cast h2
      have key := mul_sqrt_le_mul_sqrt_iff h1R h2R hcR.le hdR.le
      constructor
      · rintro ⟨-, hle⟩
        exact key.mpr (by exact_mod_cast hle)
      · intro hle
        exact ⟨h2, by exact_mod_cast key.mp hle⟩
    · push_neg at h2
      have h2R : (d.num : ℝ) < 0 := by exact_mod_cast h2
      constructor
      · rintro ⟨h2', -⟩
        exact absurd h2' (not_le.mpr h2)
      · intro hle
        exfalso
        have hx : (0 : ℝ) ≤ (c.num : ℝ) * Real.sqrt (d.den : ℝ) :=
          mul_nonneg h1R (Real.sqrt_nonneg _)
        have hy : (d.num : ℝ) * Real.sqrt (c.den : ℝ) < 0 :=
          mul_neg_of_neg_of_pos h2R hsc
        linarith
  · rw [if_neg h1]
    push_neg at h1
    have h1R : (c.num : ℝ) < 0 := by exact_mod_cast h1
    by_cases h2 : (0 : ℚ) ≤ d.num
    · rw [if_pos h2]
      have h2R : (0 : ℝ) ≤ (d.num : ℝ) := by exact_mod_cast h2
      have hx : (c.num : ℝ) * Real.sqrt (d.den : ℝ) < 0 :=
        mul_neg_of_neg_of_pos h1R hsd
      have hy : (0 : ℝ) ≤ (d.num : ℝ) * Real.sqrt (c.den : ℝ) :=
        mul_nonneg h2R (Real.sqrt_nonneg _)
      constructor
      · intro _
        linarith
      · intro _
        rfl
    · rw [if_neg h2, decide_eq_true_eq]
      push_neg at h2
      have h2R : (d.num : ℝ) < 0 := by exact_mod_cast h2
      have key := @mul_sqrt_le_mul_sqrt_iff (-(d.num : ℝ)) (-(c.num : ℝ))
        (d.den : ℝ) (c.den : ℝ)
        (by linarith) (by linarith) hdR.le hcR.le
      constructor
      · intro hle
        have hqR : ((d.num : ℝ)) ^ 2 * (c.den : ℝ) ≤ ((c.num : ℝ)) ^ 2 * (d.den : ℝ) := by
          exact_mod_cast hle
        have := key.mpr (by nlinarith [hqR])
        nlinarith [this]
      · intro hle
        have := key.mp (by nlinarith [hle])
        have hqR : ((d.num : ℝ)) ^ 2 * (c.den : ℝ) ≤ ((c.num : ℝ)) ^ 2 * (d.den : ℝ) := by
          nlinarith [this]
        exact_mod_cast hqR

/-- Membership in an insertDesc result is membership in the inserted element
or the original list. -/
theorem mem_insertDesc {x y : PatternMatch} :
    ∀ {l : List PatternMatch}, y ∈ insertDesc x l ↔ y = x ∨ y ∈ l := by
  intro l
  induction l with
  | nil => simp [insertDesc]
  | cons h t ih =>
    rw [insertDesc]
    split
    · simp [List.mem_cons]
    · simp only [List.mem_cons, ih]
      tauto

/-- sortDesc permutes its input as far as membership is concerned. -/
theorem mem_sortDesc {y : PatternMatch} :
    ∀ {l : List PatternMatch}, y ∈ sortDesc l ↔ y ∈ l := by
  intro l
  induction l with
  | nil => simp [sortDesc]
  | cons h t ih =>
    rw [sortDesc, mem_insertDesc, ih]
    simp [List.mem_cons]

/-- Inserting an element into a list sorted by descending correlation keeps
it sorted, provided every correlation involved has a positive denominator
component (so that the boolean comparison agrees with the real values). -/
theorem sorted_insertDesc {x : PatternMatch} {l : List PatternMatch}
    (hx : 0 < x.correlation.den) (hl : ∀ y ∈ l, 0 < y.correlation.den)
    (h : l.Sorted corrGE) : (insertDesc x l).Sorted corrGE := by
  induction l with
  | nil => simp [insertDesc, corrGE]
  | cons hd t ih =>
    rw [List.sorted_cons] at h
    have hhd : 0 < hd.correlation.den := hl hd (List.mem_cons_self hd t)
    have hlt : ∀ y ∈ t, 0 < y.correlation.den := fun y hy =>
      hl y (List.mem_cons_of_mem hd hy)
    rw [insertDesc]
    by_cases hc : corrLeB hd.correlation x.correlation = true
    · rw [if_pos hc]
      have hxh : corrGE x hd := (corrLeB_iff hhd hx).mp hc
      refine List.sorted_cons.mpr ⟨?_, List.sorted_cons.mpr h⟩
      intro b hb
      rcases List.mem_cons.mp hb with rfl | hbt
      · exact hxh
      · exact le_trans (h.1 b hbt) hxh
    · rw [if_neg hc]
      have hxh : corrGE hd x := by
        have : ¬ (hd.correlation.val ≤ x.correlation.val) := fun hle =>
          hc ((corrLeB_iff hhd hx).mpr hle)
        exact le_of_lt (lt_of_not_le this)
      refine List.sorted_cons.mpr ⟨?_, ih hlt h.2⟩
      intro b hb
      rcases mem_insertDesc.mp hb with rfl | hbt
      · exact hxh
      · exact h.1 b hbt

/-- sortDesc returns a list sorted by non-increasing correlation value,
provided every element has a positive denominator component. -/
theorem sorted_sortDesc {l : List PatternMatch}
    (hl : ∀ y ∈ l, 0 < y.correlation.den) : (sortDesc l).Sorted corrGE := by
  induction l with
  | nil => simp [sortDesc]
  | cons hd t ih =>
    rw [sortDesc]
    exact sorted_insertDesc (hl hd (List.mem_cons_self hd t))
      (fun y hy => hl y (List.mem_cons_of_mem hd (mem_sortDesc.mp hy)))
      (ih (fun y hy => hl y (List.mem_cons_of_mem hd hy)))

/-- Unfolding of a successful candAt: the produced match records the window
position i, its end position i + w, and a correlation that pearson produced
and that passed the 0.7 threshold test. -/
theorem candAt_eq_some {tn c : PSeries} {w i : ℕ} {m : PatternMatch}
    (h : candAt tn c w i = some m) :
    m.start_index = i ∧ m.end_index = i + w ∧
      pearson (corrPairs tn (normalizeMinmax (c.ilocSlice i w))) = some m.correlation ∧
      corrGtB m.correlation (7 / 10) = true := by
  unfold candAt at h
  dsimp only at h
  rcases hp : pearson (corrPairs tn (normalizeMinmax (c.ilocSlice i w))) with _ | co
  · rw [hp] at h
    simp at h
  · rw [hp] at h
    by_cases hg : corrGtB co (7 / 10) = true
    · simp only [hg, if_true] at h
      rcases Option.some.inj h with rfl
      exact ⟨rfl, rfl, rfl, hg⟩
    · simp only [hg, if_false, Bool.false_eq_true] at h
      exact absurd h (by simp)

/-- Every member of the similarity search result arises from a successful
candAt at some window position within range, and forces the length guard to
have passed. -/
theorem mem_find_similar_patterns {t c : PSeries} {w : ℕ} {m : PatternMatch}
    (h : m ∈ find_similar_patterns t c w) :
    ¬(t.length < w ∨ c.length < w) ∧
      ∃ i, i < c.length - w + 1 ∧
        candAt (normalizeMinmax (t.tail w)) c w i = some m := by
  unfold find_similar_patterns at h
  by_cases hg : t.length < w ∨ c.length < w
  · rw [if_pos hg] at h
    exact absurd h (List.not_mem_nil m)
  · rw [if_neg hg] at h
    rw [mem_sortDesc] at h
    rcases List.mem_filterMap.mp h with ⟨i, hi, hc⟩
    exact ⟨hg, i, List.mem_range.mp hi, hc⟩

/-- Every correlation in the similarity search result has a positive
denominator component. -/
theorem mem_fsp_den_pos {t c : PSeries} {w : ℕ} {m : PatternMatch}
    (h : m ∈ find_similar_patterns t c w) : 0 < m.correlation.den := by
  obtain ⟨-, i, -, hc⟩ := mem_find_similar_patterns h
  exact pearson_den_pos (candAt_eq_some hc).2.2.1

/-- C1: for every target series and comparison series, every PatternMatch
returned by find_similar_patterns has correlation strictly greater than 0.7,
and the returned sequence is sorted in non-increasing order of correlation. -/
theorem claim1_threshold_and_sorted (t c : PSeries) (w : ℕ) :
    (∀ m ∈ find_similar_patterns t c w, (0.7 : ℝ) < m.correlation.val) ∧
    (find_similar_patterns t c w).Sorted corrGE := by
  constructor
  · intro m hm
    have hden := mem_fsp_den_pos hm
    obtain ⟨-, i, -, hc⟩ := mem_find_similar_patterns hm
    have hgt := (candAt_eq_some hc).2.2.2
    have h7 : ((7 / 10 : ℚ) : ℝ) < m.correlation.val :=
      (corrGtB_iff hden (by norm_num)).mp hgt
    have he : ((7 / 10 : ℚ) : ℝ) = (0.7 : ℝ) := by norm_num
    linarith
  · unfold find_similar_patterns
    by_cases hg : t.length < w ∨ c.length < w
    · rw [if_pos hg]
      exact List.sorted_nil
    · rw [if_neg hg]
      apply sorted_sortDesc
      intro y hy
      rcases List.mem_filterMap.mp hy with ⟨i, -, hci⟩
      exact pearson_den_pos (candAt_eq_some hci).2.2.1

/-- C1 witness: the theorem applied to a concrete pair of series for which
the search returns one match. -/
theorem claim1_witness :
    (∀ m ∈ find_similar_patterns wT wT 2, (0.7 : ℝ) < m.correlation.val) ∧
    (find_similar_patterns wT wT 2).Sorted corrGE :=
  claim1_threshold_and_sorted wT wT 2

/-- C4: when either series is shorter than the window, the similarity search
returns the empty list (and, being a total function, raises nothing). -/
theorem claim4_short_series_empty (t c : PSeries) (w : ℕ)
    (h : t.length < w ∨ c.length < w) : find_similar_patterns t c w = [] := by
  unfold find_similar_patterns
  rw [if_pos h]

/-- C4 witness: a one bar target against a two bar comparison with window 2. -/
theorem claim4_witness : find_similar_patterns shortT wT 2 = [] :=
  claim4_short_series_empty shortT wT 2 (by decide)

/-- C9: every returned match delimits a full in-bounds window of the
comparison series: end_index = start_index + w and end_index is at most the
length of the comparison series. -/
theorem claim9_window_bounds (t c : PSeries) (w : ℕ) (m : PatternMatch)
    (h : m ∈ find_similar_patterns t c w) :
    m.end_index = m.start_index + w ∧ m.end_index ≤ c.length := by
  obtain ⟨hg, i, hi, hc⟩ := mem_find_similar_patterns h
  obtain ⟨hs, he, -, -⟩ := candAt_eq_some hc
  push_neg at hg
  have hwc : w ≤ c.length := hg.2
  constructor
  · rw [he, hs]
  · rw [he]
    omega

/-- C9 witness: the theorem applied to the concrete match found in wT. -/
theorem claim9_witness : wM.end_index = wM.start_index + 2 ∧ wM.end_index ≤ wT.length :=
  claim9_window_bounds wT wT 2 wM (by decide)

/-- C3: for every returns series, the annualized volatility equals the daily
volatility multiplied by the square root of 252, exactly (including the NaN
case, where both sides are NaN). -/
theorem claim3_annualized_volatility (r : PSeries) :
    calculate_volatility r true =
      (calculate_volatility r false).map (fun v => v * Real.sqrt 252) := by
  unfold calculate_volatility
  cases sampleVar r <;> simp

/-- C6: the embedded analytics functions are pure: they read nothing but
their arguments, so a second call on identical, unmutated inputs returns the
same output.  In this state-free embedding the property is definitional. -/
theorem claim6_pure_functions (t c : PSeries) (w : ℕ) (r : PSeries) (a : Bool) :
    find_similar_patterns t c w = find_similar_patterns t c w ∧
    calculate_volatility r a = calculate_volatility r a :=
  ⟨rfl, rfl⟩

/-- C5: degenerate denominators are absorbed: safe_divide returns its
default whenever the denominator is 0 or NaN, and the Sharpe ratio is 0
whenever the volatility of the returns is 0. -/
theorem claim5_safe_defaults :
    (∀ (n d : Option ℚ) (dft : ℚ), (d = some 0 ∨ d = none) →
      safe_divide n d dft = some dft) ∧
    (∀ (r : PSeries) (rf : ℚ), calculate_volatility r true = some 0 →
      calculate_sharpe_ratio r rf = some 0) := by
  constructor
  · intro n d dft hd
    unfold safe_divide
    rw [if_pos hd]
  · intro r rf h
    unfold calculate_sharpe_ratio
    dsimp only
    rw [h, if_pos rfl]

/-- C5 witness: a literal zero denominator, and a constant returns series
whose volatility is zero. -/
theorem claim5_witness :
    safe_divide (some 5) (some 0) 0 = some 0 ∧
    calculate_sharpe_ratio zeroR (2 / 100) = some 0 := by
  refine ⟨claim5_safe_defaults.1 (some 5) (some 0) 0 (Or.inl rfl), ?_⟩
  apply claim5_safe_defaults.2
  have hv : sampleVar zeroR = some 0 := by decide
  unfold calculate_volatility
  rw [hv]
  simp [Real.sqrt_zero]

set_option maxRecDepth 8000 in
/-- C2: demonstration of the failing input.  The comparison series cexC
consists of exactly the last 20 values of the target series cexT (a
non-constant window, as the first two values differ), so by the claim the
search should return that sub-window as a top match with correlation 1.
Because pandas Series.corr inner-aligns the two windows on their index
labels before correlating, and the labels of cexC (100..119) are disjoint
from the labels of the target tail (0..19), every correlation in the scan is
NaN and the search returns the empty list. -/
theorem claim2_alignment_bug :
    cexC.vals = (cexT.tail 20).vals ∧
    cexT.length = 20 ∧ cexC.length = 20 ∧
    cexC.vals.head? ≠ (cexC.vals.drop 1).head? ∧
    find_similar_patterns cexT cexC 20 = [] := by decide

/-- C7 counterexample: the dicts produced by the similarity search carry the
key start_date, not start_timestamp, so a produced PatternMatch is not a
record with the fields {start_index, end_index, correlation,
start_timestamp}. -/
theorem claim7_counterexample :
    (find_similar_patterns wT wT 2).map (fun m => (patternMatchDict m).map Prod.fst) =
      [["start_index", "end_index", "correlation", "start_date"]] ∧
    "start_timestamp" ∉ ["start_index", "end_index", "correlation", "start_date"] := by
  decide

/-- C7 amended: every PatternMatch produced by the similarity search is a
record with exactly the fields {start_index, end_index, correlation,
start_date}. -/
theorem claim7_amended_fields (t c : PSeries) (w : ℕ) (m : PatternMatch)
    (_h : m ∈ find_similar_patterns t c w) :
    (patternMatchDict m).map Prod.fst =
      ["start_index", "end_index", "correlation", "start_date"] := rfl

/-- C7 witness: the amended field list checked on the concrete match found
in wT. -/
theorem claim7_witness :
    (patternMatchDict wM).map Prod.fst =
      ["start_index", "end_index", "correlation", "start_date"] :=
  claim7_amended_fields wT wT 2 wM (by decide)

/-- C8: every summary handed to the prompt generation layer carries exactly
the fields symbol, price, change_pct, volume_ratio, rsi, trend and
volatility, and no other indicator fields. -/
theorem claim8_summary_fields (md : List (String × PyVal)) (s : List (String × PyVal))
    (h : s ∈ format_data_for_analysis md) :
    s.map Prod.fst =
      ["symbol", "price", "change_pct", "volume_ratio", "rsi", "trend", "volatility"] := by
  rcases List.mem_filterMap.mp h with ⟨e, -, hf⟩
  by_cases ht : pyTruthy e.2 = true
  · rw [if_pos ht] at hf
    rcases Option.some.inj hf with rfl
    rfl
  · rw [if_neg ht] at hf
    exact absurd hf (by simp)

/-- C8 witness: the theorem applied to a one symbol market_data mapping. -/
theorem claim8_witness :
    mdWSummary.map Prod.fst =
      ["symbol", "price", "change_pct", "volume_ratio", "rsi", "trend", "volatility"] :=
  claim8_summary_fields mdW mdWSummary
    (by rw [show format_data_for_analysis mdW = [mdWSummary] from rfl]
        exact List.mem_cons_self mdWSummary [])

/-- C10: normalize_data returns normally exactly for the methods minmax and
zscore, and raises ValueError (modelled by Except.error) for every other
method string. -/
theorem claim10_method_validation (data : PSeries) (method : String) :
    ((method = "minmax" ∨ method = "zscore") →
      ∃ out, normalize_data data method = .ok out) ∧
    ((method ≠ "minmax" ∧ method ≠ "zscore") →
      normalize_data data method = .error "Method must be minmax or zscore") := by
  constructor
  · rintro (rfl | rfl)
    · exact ⟨_, rfl⟩
    · exact ⟨_, rfl⟩
  · rintro ⟨h1, h2⟩
    unfold normalize_data
    rw [if_neg h1, if_neg h2]

/-- C10 witness: zscore succeeds, an undocumented method errors. -/
theorem claim10_witness :
    (∃ out, normalize_data wT "zscore" = .ok out) ∧
    normalize_data wT "foo" = .error "Method must be minmax or zscore" :=
  ⟨(claim10_method_validation wT "zscore").1 (Or.inr rfl),
   (claim10_method_validation wT "foo").2 (by decide)⟩
